import Mathlib

/-!
Verification development for the jdaviz_profiler repository.

This file gives a shallow embedding of the components the specification
talks about:

* `src/src/utils.py`: `CellExecutionStatus`, `dict_combinations`;
* `src/src/executable_cell.py`: the polling loop of `ExecutableCell.execute`
  together with its helpers `time_is_expired`, `kernel_has_restarted`,
  `need_to_wait_for_viz`, `viz_is_stable`;
* `src/src/viz_element.py`: `VizElement.is_stable`;
* `src/src/notebook_generator.py`: `NotebookGenerator.add_statement_to_cell_source`;
* `src/src/metrics.py`: the `Metrics` record and `Metrics.compute`;
* `src/src/profiler.py`: `Profiler.collect_executable_cell_metrics` and
  `Profiler.execute_notebook_cells`;
* `src/src/generate_notebooks.py`: the output-path loop of `generate_notebooks`.

Machine times and telemetry samples are modelled as rationals, screenshots as
byte lists, and the environment the polling loop observes (clock, kernel pid,
rendered output, viz element) as one record of booleans per poll iteration.
-/

namespace JdavizProfiler

/-! ## `CellExecutionStatus` (src/src/utils.py, lines 74-94) -/

/-- The five execution statuses of `CellExecutionStatus` in `src/src/utils.py`
(and identically in `src/src/performance_metrics.py`). -/
inductive CellExecutionStatus where
  | PENDING
  | IN_PROGRESS
  | COMPLETED
  | FAILED
  | TIMED_OUT
  deriving DecidableEq, Repr

namespace CellExecutionStatus

/-- `CellExecutionStatus.is_not_final`: `self in {PENDING, IN_PROGRESS}`. -/
def is_not_final : CellExecutionStatus → Bool
  | PENDING => true
  | IN_PROGRESS => true
  | _ => false

/-- `CellExecutionStatus.is_final`: `not self.is_not_final`. -/
def is_final (s : CellExecutionStatus) : Bool :=
  !s.is_not_final

end CellExecutionStatus

/-! ## `VizElement.is_stable` (src/src/viz_element.py, lines 30-59)

The body of `is_stable`: return `False` when the element is `None`, otherwise
take two screenshots a fixed interval apart and return whether they are
byte-for-byte equal.  (In the source this is an `async def`; its body is shown
here; how `ExecutableCell.viz_is_stable` consumes it is modelled below.) -/

/-- Body of `VizElement.is_stable`: `False` if the element handle is absent,
else byte-equality of the two screenshots. -/
def VizElement.is_stable (elementPresent : Bool)
    (screenshot_before screenshot_after : List Nat) : Bool :=
  if elementPresent = false then false
  else screenshot_before == screenshot_after

/-! ## The polling loop of `ExecutableCell.execute`
(src/src/executable_cell.py, lines 61-188)

Each iteration of the `while continue_loop` loop observes the environment:
the wall clock (`time_is_expired`), the current kernel pid
(`kernel_has_restarted`), the rendered cell output
(`done_statement_is_present`) and the shared viz element
(`profiler.viz_element`).  One `PollInput` records those observations for one
iteration:

* `timeExpired`: `elapsed_time(start_time) > max_wait_time` at this iteration;
* `pidChanged`: the current kernel pid differs from the baseline pid;
* `markerPresent`: `done_statement_is_present()` would return `True`;
* `vizExists`: `profiler.viz_element` is set when `viz_is_stable` runs;
* `vizStable`: the value `VizElement.is_stable` would produce this iteration
  (element present and the two screenshots equal).

NOTE on `vizStable`: in the source, `ExecutableCell.viz_is_stable` executes
`viz_is_stable: bool = self.profiler.viz_element.is_stable(self.index)` where
`VizElement.is_stable` is an `async def` (src/src/viz_element.py line 30).
The call is never awaited, so it returns a coroutine object, which is truthy
regardless of what the coroutine body would compute.  Consequently
`if viz_is_stable:` takes the true branch whenever `profiler.viz_element`
exists, and the `vizStable` observation is never consulted by the loop.  The
step function below reproduces that behaviour faithfully. -/

/-- The environment observations made by one iteration of the polling loop. -/
structure PollInput where
  timeExpired : Bool
  pidChanged : Bool
  markerPresent : Bool
  vizExists : Bool
  vizStable : Bool
  deriving DecidableEq, Repr

/-- The mutable loop state of `ExecutableCell.execute`: the execution status
stored in the cell's performance-metrics record, the sticky `done_found`
flag, and the negation of `continue_loop`. -/
structure LoopState where
  status : CellExecutionStatus
  doneFound : Bool
  finished : Bool
  deriving DecidableEq, Repr

/-- State on entering the `while` loop: status was just set to `IN_PROGRESS`
(line 78), `done_found = False` (line 68), `continue_loop = True` (line 90). -/
def initLoopState : LoopState :=
  { status := .IN_PROGRESS, doneFound := false, finished := false }

/-- One iteration of the `while continue_loop` loop of
`ExecutableCell.execute` (src/src/executable_cell.py lines 91-125), for a
cell with flag `wait_for_viz`:

1. `capture_metrics` (line 95) does not change status, `done_found` or
   `continue_loop`;
2. `continue_loop = continue_loop and not self.time_is_expired(start_time)`:
   on expiry sets status `TIMED_OUT` and stops (lines 97, 144-151);
3. `continue_loop = continue_loop and not self.kernel_has_restarted(pid)`:
   on a pid change sets status `FAILED` and stops (lines 99, 153-161);
4. the marker check (lines 112-116): `done_found := done_found or
   self.done_statement_is_present()`; when still false, `continue` to the
   next iteration;
5. `continue_loop = continue_loop and self.need_to_wait_for_viz()`: when
   `wait_for_viz` is false, sets status `COMPLETED` and stops (lines 118,
   163-171);
6. `continue_loop = continue_loop and not self.viz_is_stable()` (lines 120,
   173-188): when `profiler.viz_element` exists, the un-awaited coroutine
   returned by `is_stable` is truthy, so status is set to `COMPLETED` and the
   loop stops; when it does not exist, `detect_viz_element` is attempted and
   the loop goes on.  The `vizStable` observation is not consulted.

Once `continue_loop` is false the remaining conjunctions short-circuit, so a
finished state is left untouched. -/
def pollStep (wait_for_viz : Bool) (s : LoopState) (inp : PollInput) : LoopState :=
  if s.finished then s
  else if inp.timeExpired then { s with status := .TIMED_OUT, finished := true }
  else if inp.pidChanged then { s with status := .FAILED, finished := true }
  else
    let d := s.doneFound || inp.markerPresent
    if d = false then { s with doneFound := d }
    else if wait_for_viz = false then
      { s with doneFound := d, status := .COMPLETED, finished := true }
    else if inp.vizExists then
      { s with doneFound := d, status := .COMPLETED, finished := true }
    else { s with doneFound := d }

/-- The polling loop of `ExecutableCell.execute`, run over a finite list of
per-iteration environment observations. -/
def runCellLoop (wait_for_viz : Bool) (inputs : List PollInput) : LoopState :=
  inputs.foldl (pollStep wait_for_viz) initLoopState

/-- The sequence of execution statuses taken by one call of
`ExecutableCell.execute`: `PENDING` at construction
(src/src/performance_metrics.py line 100), `IN_PROGRESS` on issuing the run
command (line 78 of executable_cell.py), then the status after each loop
iteration. -/
def executionStatusTrace (wait_for_viz : Bool) (inputs : List PollInput) :
    List CellExecutionStatus :=
  .PENDING :: (List.scanl (pollStep wait_for_viz) initLoopState inputs).map
    (fun s => s.status)

/-! ## `dict_combinations` (src/src/utils.py, lines 236-251)

A Python `dict` preserves insertion order, so the input is modelled as an
ordered association list from parameter name to value list.
`itertools.product(*input_dict.values())` is `listProduct` below (the last
factor varies fastest), and each combination is zipped with the keys. -/

/-- `itertools.product` over a list of value lists: `listProduct [l1, ..., lk]`
enumerates all tuples drawing one element of each `li`, with the first factor
varying slowest, exactly like `itertools.product(l1, ..., lk)`.  The product
of zero lists is the single empty tuple. -/
def listProduct {α : Type} : List (List α) → List (List α)
  | [] => [[]]
  | l :: ls => l.flatMap (fun x => (listProduct ls).map (fun c => x :: c))

/-- `dict_combinations`: `[dict(zip(input_dict.keys(), combo)) for combo in
itertools.product(*input_dict.values())]`. -/
def dict_combinations {α : Type} (input_dict : List (String × List α)) :
    List (List (String × α)) :=
  (listProduct (input_dict.map Prod.snd)).map
    (fun combo => (input_dict.map Prod.fst).zip combo)

/-- An assignment drawing, in key order, one value from each parameter's value
list: the selections `dict_combinations` is meant to enumerate. -/
def IsSelection {α : Type} (input_dict : List (String × List α))
    (sel : List (String × α)) : Prop :=
  List.Forall₂ (fun p kv => kv.1 = p.1 ∧ kv.2 ∈ p.2) input_dict sel

instance {α : Type} [DecidableEq α] (input_dict : List (String × List α))
    (sel : List (String × α)) : Decidable (IsSelection input_dict sel) :=
  inferInstanceAs (Decidable (List.Forall₂ _ _ _))

/-! ## The notebook-generation loop of `generate_notebooks`
(src/src/generate_notebooks.py, lines 67-104)

For every combination produced by `dict_combinations(params)` the loop builds
one output filename `<base>-<key><value>...` (suffix `_value` stripped from
each key), generates one notebook, and appends the output path to
`output_paths`, which is returned.  File-system concerns (removing a
pre-existing file, the directory prefix) are immaterial to the claims and are
not modelled; values are modelled by their string rendering. -/

/-- Python `str.removesuffix`. -/
def removesuffix (s sfx : String) : String :=
  if s.endsWith sfx ∧ sfx ≠ "" then s.dropRight sfx.length else s

/-- The filename built for one parameter combination:
`f"{nb_filename}-{k.removesuffix('_value')}{v}"` folded over the assignment,
then `f"{nb_filename}.ipynb"`. -/
def notebook_filename (base : String) (parameters_values : List (String × String)) :
    String :=
  (parameters_values.foldl
    (fun acc kv => acc ++ "-" ++ removesuffix kv.1 "_value" ++ kv.2) base)
    ++ ".ipynb"

/-- The list of output paths returned by `generate_notebooks`: one filename
per element of `dict_combinations(params)`. -/
def generate_notebooks_output_paths (base : String)
    (params : List (String × List String)) : List String :=
  (dict_combinations params).map (notebook_filename base)

/-! ## `NotebookGenerator.add_statement_to_cell_source`
(src/src/notebook_generator.py, lines 35-53)

Cell sources are modelled as lists of characters.  `str.splitlines` is
modelled for the line boundaries `"\n"`, `"\r\n"` and `"\r"` (the boundaries
that occur in notebook sources; Python additionally splits on rarer control
characters, which never appear here), and `os.linesep.join` with
`os.linesep = "\n"` (the profiler runs on a POSIX system). -/

/-- Auxiliary worker for `pySplitlines`: `acc` holds the characters of the
current line in reverse; a `"\r\n"` pair is one line boundary. -/
def splitlinesAux : List Char → List Char → List (List Char)
  | [], acc => if acc.isEmpty then [] else [acc.reverse]
  | c :: rest, acc =>
    if c = '\n' then acc.reverse :: splitlinesAux rest []
    else if c = '\r' then
      acc.reverse ::
        splitlinesAux (if rest.head? = some '\n' then rest.tail else rest) []
    else splitlinesAux rest (c :: acc)
  termination_by cs _ => cs.length
  decreasing_by
  · simp
  · simp only [List.length_cons]
    split
    · cases rest
      · simp
      · simp
        omega
    · omega
  · simp

/-- Python `str.splitlines`: split at line boundaries, no trailing empty line
for a source ending in a newline, `[]` for the empty string. -/
def pySplitlines (s : List Char) : List (List Char) :=
  splitlinesAux s []

/-- `os.linesep.join(lines)` with `os.linesep = "\n"`. -/
def joinLines : List (List Char) → List Char
  | [] => []
  | [l] => l
  | l :: ls => l ++ '\n' :: joinLines ls

/-- `NotebookGenerator.add_statement_to_cell_source`:
`if (lines := cell_source.splitlines()) and lines[-1] != statement:
lines.append(statement)`, then `linesep.join(lines)`. -/
def add_statement_to_cell_source (statement cell_source : List Char) : List Char :=
  let lines := pySplitlines cell_source
  joinLines
    (if lines ≠ [] ∧ lines.getLast? ≠ some statement
     then lines ++ [statement] else lines)

/-- `NotebookGenerator.DONE_STATEMENT = 'print("DONE")'`. -/
def DONE_STATEMENT : List Char :=
  "print(\"DONE\")".data

/-! ## `Metrics` and `Metrics.compute` (src/src/metrics.py, lines 11-123)

`BaseMetrics` is built by `make_dataclass` from `BASE_METRICS_FIELDS`:
`total_execution_time` and `client_total_data_received` (default `0`), one raw
sample list `f"{s}_{m}_list"` per `(s, m)` in `SOURCE_METRIC_COMBO =
(client, kernel) x (cpu, memory)` (default `[]`), and one statistic field
`f"{so}_{st}_{m}"` per `(so, st, m)` in `SOURCE_METRIC_STAT_COMBO`
(`STATS_MAP` keys `min`, `mean`, `max`; default `0`).  The four lists and the
twelve statistic fields are spelled out below.  Sample values are modelled as
rationals. -/

/-- The `Metrics` dataclass of src/src/metrics.py with the fields of
`BASE_METRICS_FIELDS`, defaults as in the source. -/
structure Metrics where
  total_execution_time : ℚ := 0
  client_total_data_received : ℚ := 0
  client_cpu_list : List ℚ := []
  client_memory_list : List ℚ := []
  kernel_cpu_list : List ℚ := []
  kernel_memory_list : List ℚ := []
  client_min_cpu : ℚ := 0
  client_mean_cpu : ℚ := 0
  client_max_cpu : ℚ := 0
  client_min_memory : ℚ := 0
  client_mean_memory : ℚ := 0
  client_max_memory : ℚ := 0
  kernel_min_cpu : ℚ := 0
  kernel_mean_cpu : ℚ := 0
  kernel_max_cpu : ℚ := 0
  kernel_min_memory : ℚ := 0
  kernel_mean_memory : ℚ := 0
  kernel_max_memory : ℚ := 0
  deriving DecidableEq, Repr

/-- A `Metrics` with every field at its dataclass default. -/
def Metrics.init : Metrics := {}

/-- Python's builtin `min` over a list: fails (raises `ValueError`) on an
empty list, modelled as `none`. -/
def pyMin (l : List ℚ) : Option ℚ :=
  match l with
  | [] => none
  | x :: xs => some (xs.foldl min x)

/-- Python's builtin `max` over a list: fails on an empty list. -/
def pyMax (l : List ℚ) : Option ℚ :=
  match l with
  | [] => none
  | x :: xs => some (xs.foldl max x)

/-- `statistics.mean`: the arithmetic mean, raising (modelled as `none`) on an
empty list. -/
def pyMean (l : List ℚ) : Option ℚ :=
  if l.length = 0 then none else some (l.sum / l.length)

/-- One step of the `Metrics.compute` loop for a triple
`(so, st, m)` of `SOURCE_METRIC_STAT_COMBO`:
`if values := getattr(self, f"{so}_{m}_list"): setattr(self,
f"{so}_{st}_{m}", STATS_MAP[st](values))` — when the list is non-empty the
statistic is evaluated (and its failure would propagate), otherwise the field
keeps its previous value. -/
def applyStat (stat : List ℚ → Option ℚ) (values : List ℚ) (old : ℚ) : Option ℚ :=
  if values = [] then some old else stat values

/-- `Metrics.compute` (src/src/metrics.py lines 119-123): for every
`(so, st, m)` in `SOURCE_METRIC_STAT_COMBO`, set `f"{so}_{st}_{m}"` to
`STATS_MAP[st]` of `f"{so}_{m}_list"` when that list is non-empty.  A `none`
result models a raised exception from evaluating a statistic. -/
def Metrics.compute (m : Metrics) : Option Metrics := do
  let c_min_cpu ← applyStat pyMin m.client_cpu_list m.client_min_cpu
  let c_mean_cpu ← applyStat pyMean m.client_cpu_list m.client_mean_cpu
  let c_max_cpu ← applyStat pyMax m.client_cpu_list m.client_max_cpu
  let c_min_mem ← applyStat pyMin m.client_memory_list m.client_min_memory
  let c_mean_mem ← applyStat pyMean m.client_memory_list m.client_mean_memory
  let c_max_mem ← applyStat pyMax m.client_memory_list m.client_max_memory
  let k_min_cpu ← applyStat pyMin m.kernel_cpu_list m.kernel_min_cpu
  let k_mean_cpu ← applyStat pyMean m.kernel_cpu_list m.kernel_mean_cpu
  let k_max_cpu ← applyStat pyMax m.kernel_cpu_list m.kernel_max_cpu
  let k_min_mem ← applyStat pyMin m.kernel_memory_list m.kernel_min_memory
  let k_mean_mem ← applyStat pyMean m.kernel_memory_list m.kernel_mean_memory
  let k_max_mem ← applyStat pyMax m.kernel_memory_list m.kernel_max_memory
  some { m with
    client_min_cpu := c_min_cpu, client_mean_cpu := c_mean_cpu,
    client_max_cpu := c_max_cpu,
    client_min_memory := c_min_mem, client_mean_memory := c_mean_mem,
    client_max_memory := c_max_mem,
    kernel_min_cpu := k_min_cpu, kernel_mean_cpu := k_mean_cpu,
    kernel_max_cpu := k_max_cpu,
    kernel_min_memory := k_min_mem, kernel_mean_memory := k_mean_mem,
    kernel_max_memory := k_max_mem }

/-! ## `Profiler.execute_notebook_cells` and
`Profiler.collect_executable_cell_metrics` (src/src/profiler.py, lines
319-375)

An `ExecutableCell`, as the profiler's cell loop sees it once `execute` has
returned, carries its `skip_profiling` flag and its finished `CellMetrics`
record (`cell_index`, `execution_status`, plus the `Metrics` fields). -/

/-- `CellMetrics` (src/src/metrics.py lines 142-152): the `Metrics` fields
plus `cell_index` and `execution_status`. -/
structure CellMetrics extends Metrics where
  cell_index : ℕ := 0
  execution_status : CellExecutionStatus := .PENDING
  deriving DecidableEq, Repr

/-- `NotebookMetrics` (src/src/metrics.py lines 162-174): the `Metrics`
fields plus `total_cells`, `executed_cells` and `profiled_cells`. -/
structure NotebookMetrics extends Metrics where
  total_cells : ℕ := 0
  executed_cells : ℕ := 0
  profiled_cells : ℕ := 0
  deriving DecidableEq, Repr

/-- A fresh `NotebookMetrics`, as created by the `Profiler` dataclass field
default before a run. -/
def NotebookMetrics.init : NotebookMetrics := {}

/-- An executable cell as observed by the profiler's cell loop after
`ExecutableCell.execute` has returned: its static `skip_profiling` flag and
its finished metrics record. -/
structure ExecutableCell where
  skip_profiling : Bool
  metrics : CellMetrics
  deriving DecidableEq, Repr

/-- `Profiler.collect_executable_cell_metrics` (src/src/profiler.py lines
351-375): increment `executed_cells`; if the cell skips profiling stop,
otherwise increment `profiled_cells`, accumulate `total_execution_time` and
`client_total_data_received`, and extend each `f"{s}_{m}_list"` with the
cell's own list. -/
def collect_executable_cell_metrics (nm : NotebookMetrics) (ec : ExecutableCell) :
    NotebookMetrics :=
  let nm1 := { nm with executed_cells := nm.executed_cells + 1 }
  if ec.skip_profiling then nm1
  else
    { nm1 with
      profiled_cells := nm1.profiled_cells + 1,
      total_execution_time :=
        nm1.total_execution_time + ec.metrics.total_execution_time,
      client_total_data_received :=
        nm1.client_total_data_received + ec.metrics.client_total_data_received,
      client_cpu_list := nm1.client_cpu_list ++ ec.metrics.client_cpu_list,
      client_memory_list := nm1.client_memory_list ++ ec.metrics.client_memory_list,
      kernel_cpu_list := nm1.kernel_cpu_list ++ ec.metrics.kernel_cpu_list,
      kernel_memory_list := nm1.kernel_memory_list ++ ec.metrics.kernel_memory_list }

/-- The metrics effect of `Profiler.execute_notebook_cells` (src/src/profiler.py
lines 319-349): for each cell in order, execute it, collect its metrics, save
them, and `break` when its execution status is not `COMPLETED`. -/
def execute_notebook_cells (nm : NotebookMetrics) :
    List ExecutableCell → NotebookMetrics
  | [] => nm
  | ec :: rest =>
    let nm1 := collect_executable_cell_metrics nm ec
    if ec.metrics.execution_status = .COMPLETED
    then execute_notebook_cells nm1 rest
    else nm1

/-- The cells the loop of `execute_notebook_cells` actually reaches: every
cell up to and including the first one whose status is not `COMPLETED`. -/
def executedCells : List ExecutableCell → List ExecutableCell
  | [] => []
  | ec :: rest =>
    ec :: (if ec.metrics.execution_status = .COMPLETED then executedCells rest else [])

/-- The observable events of the profiler's cell loop, keyed by the 1-based
cell position: the call to `ec.execute()`, the call to
`collect_executable_cell_metrics(ec)`, and the call to
`save_cell_metrics_to_csv(ec)`. -/
inductive NbEvent where
  | execCell (i : ℕ)
  | collectMetrics (i : ℕ)
  | saveMetrics (i : ℕ)
  deriving DecidableEq, Repr

/-- The event trace of `Profiler.execute_notebook_cells` starting at cell
position `n` (the profiler numbers cells from 1): each iteration executes the
cell, collects its metrics, saves them, and stops when the status is not
`COMPLETED`. -/
def cellsTrace (n : ℕ) : List ExecutableCell → List NbEvent
  | [] => []
  | ec :: rest =>
    .execCell n :: .collectMetrics n :: .saveMetrics n ::
      (if ec.metrics.execution_status = .COMPLETED then cellsTrace (n + 1) rest else [])

/-! ## Spec-side predicates about the status machine -/

/-- Invariant of the polling loop: while the loop goes on the status is
`IN_PROGRESS`; once it has stopped the status is final. -/
def LoopInv (s : LoopState) : Prop :=
  (s.finished = false → s.status = .IN_PROGRESS) ∧
  (s.finished = true → s.status.is_final = true)

instance (s : LoopState) : Decidable (LoopInv s) :=
  inferInstanceAs (Decidable (And _ _))

/-- The allowed status transitions of the spec: a final status never changes,
`IN_PROGRESS` is entered only from `PENDING` (or kept), and a final status is
entered only from `IN_PROGRESS`. -/
def StatusStepOK (a b : CellExecutionStatus) : Prop :=
  (a.is_final = true → b = a) ∧
  (b = .IN_PROGRESS → a = .PENDING ∨ a = .IN_PROGRESS) ∧
  (b.is_final = true → b ≠ a → a = .IN_PROGRESS)

instance (a b : CellExecutionStatus) : Decidable (StatusStepOK a b) :=
  inferInstanceAs (Decidable (And _ _))

/-! # Theorems

Helper lemmas first, then one theorem per claim (with witnesses and
counterexamples where called for). -/

/-! ## Lemmas about the polling loop -/

lemma pollStep_of_finished (wfv : Bool) (s : LoopState) (inp : PollInput)
    (h : s.finished = true) : pollStep wfv s inp = s := by
  simp [pollStep, h]

lemma foldl_pollStep_of_finished (wfv : Bool) (l : List PollInput) (s : LoopState)
    (h : s.finished = true) : List.foldl (pollStep wfv) s l = s := by
  induction l with
  | nil => rfl
  | cons i is ih => rw [List.foldl_cons, pollStep_of_finished wfv s i h, ih]

lemma pollStep_progress : ∀ (wfv d te pc mp ve vs : Bool),
    LoopInv (pollStep wfv ⟨.IN_PROGRESS, d, false⟩ ⟨te, pc, mp, ve, vs⟩) ∧
    StatusStepOK .IN_PROGRESS
      (pollStep wfv ⟨.IN_PROGRESS, d, false⟩ ⟨te, pc, mp, ve, vs⟩).status := by
  decide

lemma pollStep_ok (wfv : Bool) (s : LoopState) (inp : PollInput) (h : LoopInv s) :
    LoopInv (pollStep wfv s inp) ∧ StatusStepOK s.status (pollStep wfv s inp).status := by
  by_cases hf : s.finished = true
  · rw [pollStep_of_finished wfv s inp hf]
    refine ⟨h, fun _ => rfl, fun hb => Or.inr hb, fun _ hne => absurd rfl hne⟩
  · have hf' : s.finished = false := by
      revert hf
      cases s.finished <;> simp
    have hs : s.status = .IN_PROGRESS := h.1 hf'
    obtain ⟨st, d, f⟩ := s
    obtain ⟨te, pc, mp, ve, vs⟩ := inp
    simp only at hs hf'
    subst hs hf'
    exact pollStep_progress wfv d te pc mp ve vs

lemma initLoopState_inv : LoopInv initLoopState := by decide

lemma chain'_scanl_pollStep (wfv : Bool) (inputs : List PollInput) (s : LoopState)
    (h : LoopInv s) :
    List.Chain' StatusStepOK
      ((List.scanl (pollStep wfv) s inputs).map (fun t => t.status)) := by
  induction inputs generalizing s with
  | nil => simp
  | cons i is ih =>
    rw [List.scanl_cons, List.singleton_append, List.map_cons]
    have hok := pollStep_ok wfv s i h
    refine List.chain'_cons'.mpr ⟨?_, ih (pollStep wfv s i) hok.1⟩
    intro b hb
    have hhead : ((List.scanl (pollStep wfv) (pollStep wfv s i) is).map
        (fun t => t.status)).head? = some (pollStep wfv s i).status := by
      cases is <;> simp [List.scanl]
    rw [hhead] at hb
    cases hb
    exact hok.2

lemma foldl_pollStep_inv (wfv : Bool) : ∀ (l : List PollInput) (s : LoopState),
    LoopInv s → LoopInv (List.foldl (pollStep wfv) s l) := by
  intro l
  induction l with
  | nil => exact fun s h => h
  | cons i is ih =>
    intro s h
    exact ih (pollStep wfv s i) (pollStep_ok wfv s i h).1

lemma runCellLoop_final_finished (wfv : Bool) (l : List PollInput)
    (h : (runCellLoop wfv l).status.is_final = true) :
    (runCellLoop wfv l).finished = true := by
  have hinv : LoopInv (runCellLoop wfv l) :=
    foldl_pollStep_inv wfv l initLoopState initLoopState_inv
  by_cases hf : (runCellLoop wfv l).finished = true
  · exact hf
  · have hf' : (runCellLoop wfv l).finished = false := by
      revert hf
      cases (runCellLoop wfv l).finished <;> simp
    rw [hinv.1 hf'] at h
    cases h

/-- C2: for every execution of a cell, the status trace only moves forward
along PENDING -> IN_PROGRESS -> {COMPLETED, FAILED, TIMED_OUT}: between any
two consecutive statuses of the trace, a final status never changes,
`IN_PROGRESS` is reached only from `PENDING`, and a terminal status is
entered only from `IN_PROGRESS`; moreover, once the state after `k` poll
iterations carries a final status, the state after any `k' ≥ k` iterations
carries that same status — a final status never changes again. -/
theorem status_transitions_monotone (wait_for_viz : Bool) (inputs : List PollInput) :
    List.Chain' StatusStepOK (executionStatusTrace wait_for_viz inputs) ∧
    (∀ k k', k ≤ k' →
      (runCellLoop wait_for_viz (inputs.take k)).status.is_final = true →
      (runCellLoop wait_for_viz (inputs.take k')).status =
        (runCellLoop wait_for_viz (inputs.take k)).status) := by
  constructor
  · unfold executionStatusTrace
    refine List.chain'_cons'.mpr ⟨?_, chain'_scanl_pollStep wait_for_viz inputs
      initLoopState initLoopState_inv⟩
    intro b hb
    have hhead : ((List.scanl (pollStep wait_for_viz) initLoopState inputs).map
        (fun t => t.status)).head? = some CellExecutionStatus.IN_PROGRESS := by
      cases inputs <;> simp [List.scanl, initLoopState]
    rw [hhead] at hb
    cases hb
    decide
  · intro k k' hkk hfin
    have hfinished := runCellLoop_final_finished wait_for_viz (inputs.take k) hfin
    have hsplit : inputs.take k' =
        inputs.take k ++ (inputs.drop k).take (k' - k) := by
      rw [← List.take_add]
      congr 1
      omega
    have hr : runCellLoop wait_for_viz (inputs.take k') =
        List.foldl (pollStep wait_for_viz)
          (runCellLoop wait_for_viz (inputs.take k))
          ((inputs.drop k).take (k' - k)) := by
      rw [hsplit]
      unfold runCellLoop
      rw [List.foldl_append]
    rw [hr, foldl_pollStep_of_finished wait_for_viz _ _ hfinished]

/-- C3: if at some polling iteration the elapsed time exceeds `max_wait_time`
while the loop is still running and the completion marker has not been found
on any earlier iteration, the final status is `TIMED_OUT` and the loop exits
at that iteration. -/
theorem timeout_before_marker_times_out (wait_for_viz : Bool)
    (inputs : List PollInput) (k : ℕ) (hk : k < inputs.length)
    (hrun : (runCellLoop wait_for_viz (inputs.take k)).finished = false)
    (_hdone : (runCellLoop wait_for_viz (inputs.take k)).doneFound = false)
    (hexp : inputs[k].timeExpired = true) :
    (runCellLoop wait_for_viz inputs).status = .TIMED_OUT ∧
    (runCellLoop wait_for_viz (inputs.take (k + 1))).finished = true := by
  have htake : inputs.take (k + 1) = inputs.take k ++ [inputs[k]] := by
    rw [List.take_succ]
    simp [List.getElem?_eq_getElem hk]
  have hstep : runCellLoop wait_for_viz (inputs.take (k + 1)) =
      pollStep wait_for_viz (runCellLoop wait_for_viz (inputs.take k)) inputs[k] := by
    rw [htake]
    unfold runCellLoop
    rw [List.foldl_append]
    rfl
  have hres : (runCellLoop wait_for_viz (inputs.take (k + 1))).status = .TIMED_OUT ∧
      (runCellLoop wait_for_viz (inputs.take (k + 1))).finished = true := by
    rw [hstep]
    simp [pollStep, hrun, hexp]
  refine ⟨?_, hres.2⟩
  have hsplit : inputs = inputs.take (k + 1) ++ inputs.drop (k + 1) :=
    (List.take_append_drop (k + 1) inputs).symm
  calc (runCellLoop wait_for_viz inputs).status
      = (List.foldl (pollStep wait_for_viz)
          (runCellLoop wait_for_viz (inputs.take (k + 1)))
          (inputs.drop (k + 1))).status := by
        conv_lhs => rw [hsplit]
        unfold runCellLoop
        rw [List.foldl_append]
    _ = .TIMED_OUT := by
        rw [foldl_pollStep_of_finished wait_for_viz _ _ hres.2]
        exact hres.1

/-- Witness for C3 at a concrete input: a single poll iteration whose clock
has expired, with no marker found before it. -/
theorem timeout_before_marker_times_out_witness :
    (runCellLoop false [⟨true, false, false, false, false⟩]).status = .TIMED_OUT ∧
    (runCellLoop false (([⟨true, false, false, false, false⟩] :
        List PollInput).take (0 + 1))).finished = true :=
  timeout_before_marker_times_out false [⟨true, false, false, false, false⟩] 0
    (by decide) (by decide) (by decide) (by decide)

/-- C4 counterexample: on an iteration where the clock has already expired
AND the kernel pid has changed (marker never found, loop still running), the
code sets `TIMED_OUT`, not `FAILED`: `time_is_expired` is checked before
`kernel_has_restarted`. -/
theorem kernel_restart_claim_counterexample :
    (((([⟨true, true, false, false, false⟩] : List PollInput)).take 0).foldl
        (pollStep false) initLoopState).finished = false ∧
    (((([⟨true, true, false, false, false⟩] : List PollInput)).take 0).foldl
        (pollStep false) initLoopState).doneFound = false ∧
    ([⟨true, true, false, false, false⟩] : List PollInput)[0].pidChanged = true ∧
    (runCellLoop false [⟨true, true, false, false, false⟩]).status = .TIMED_OUT ∧
    CellExecutionStatus.TIMED_OUT ≠ CellExecutionStatus.FAILED := by
  decide

/-- C4 as amended: if at some polling iteration the kernel pid differs from
the baseline, the loop is still running, the marker has not been found on any
earlier iteration, AND the elapsed time has not exceeded `max_wait_time` at
that iteration, then the final status is `FAILED` and the loop exits at that
iteration. -/
theorem kernel_restart_before_marker_fails (wait_for_viz : Bool)
    (inputs : List PollInput) (k : ℕ) (hk : k < inputs.length)
    (hrun : (runCellLoop wait_for_viz (inputs.take k)).finished = false)
    (_hdone : (runCellLoop wait_for_viz (inputs.take k)).doneFound = false)
    (hnexp : inputs[k].timeExpired = false)
    (hpid : inputs[k].pidChanged = true) :
    (runCellLoop wait_for_viz inputs).status = .FAILED ∧
    (runCellLoop wait_for_viz (inputs.take (k + 1))).finished = true := by
  have htake : inputs.take (k + 1) = inputs.take k ++ [inputs[k]] := by
    rw [List.take_succ]
    simp [List.getElem?_eq_getElem hk]
  have hstep : runCellLoop wait_for_viz (inputs.take (k + 1)) =
      pollStep wait_for_viz (runCellLoop wait_for_viz (inputs.take k)) inputs[k] := by
    rw [htake]
    unfold runCellLoop
    rw [List.foldl_append]
    rfl
  have hres : (runCellLoop wait_for_viz (inputs.take (k + 1))).status = .FAILED ∧
      (runCellLoop wait_for_viz (inputs.take (k + 1))).finished = true := by
    rw [hstep]
    simp [pollStep, hrun, hnexp, hpid]
  refine ⟨?_, hres.2⟩
  have hsplit : inputs = inputs.take (k + 1) ++ inputs.drop (k + 1) :=
    (List.take_append_drop (k + 1) inputs).symm
  calc (runCellLoop wait_for_viz inputs).status
      = (List.foldl (pollStep wait_for_viz)
          (runCellLoop wait_for_viz (inputs.take (k + 1)))
          (inputs.drop (k + 1))).status := by
        conv_lhs => rw [hsplit]
        unfold runCellLoop
        rw [List.foldl_append]
    _ = .FAILED := by
        rw [foldl_pollStep_of_finished wait_for_viz _ _ hres.2]
        exact hres.1

/-- Witness for the amended C4 at a concrete input: a single iteration with a
changed kernel pid and an unexpired clock. -/
theorem kernel_restart_before_marker_fails_witness :
    (runCellLoop true [⟨false, true, false, false, false⟩]).status = .FAILED ∧
    (runCellLoop true (([⟨false, true, false, false, false⟩] :
        List PollInput).take (0 + 1))).finished = true :=
  kernel_restart_before_marker_fails true [⟨false, true, false, false, false⟩] 0
    (by decide) (by decide) (by decide) (by decide) (by decide)

/-- C1 (code bug evidence): with `wait_for_viz = true`, a found marker and an
existing viz element, the loop marks the cell `COMPLETED` on that very poll
regardless of the stability observation — in particular when the two
screenshots differ, i.e. when `VizElement.is_stable` would return `false`.
The un-awaited coroutine returned by the `async` `is_stable` is truthy, so
the stability value is never consulted. -/
theorem viz_gating_ignores_stability :
    (∀ b : Bool,
      (runCellLoop true [⟨false, false, true, true, b⟩]).status = .COMPLETED ∧
      (runCellLoop true [⟨false, false, true, true, b⟩]).doneFound = true) ∧
    VizElement.is_stable true [0] [1] = false := by
  decide

/-! ## Lemmas about `listProduct` and `dict_combinations` -/

lemma length_listProduct {α : Type} (ls : List (List α)) :
    (listProduct ls).length = (ls.map List.length).prod := by
  induction ls with
  | nil => rfl
  | cons l ls ih =>
    have hexp : listProduct (l :: ls) =
        l.flatMap (fun x => (listProduct ls).map (fun c => x :: c)) := rfl
    rw [hexp, List.length_flatMap]
    have hconst : List.map (List.length ∘ fun x => (listProduct ls).map
        (fun c => x :: c)) l = List.map (fun _ => (ls.map List.length).prod) l := by
      apply List.map_congr_left
      intro a _
      simp [Function.comp, ih]
    rw [hconst, List.map_const', List.sum_replicate, smul_eq_mul, List.map_cons,
      List.prod_cons]

lemma length_of_mem_listProduct {α : Type} {ls : List (List α)} {c : List α}
    (h : c ∈ listProduct ls) : c.length = ls.length := by
  induction ls generalizing c with
  | nil =>
    simp [listProduct] at h
    simp [h]
  | cons l ls ih =>
    simp only [listProduct, List.mem_flatMap, List.mem_map] at h
    obtain ⟨x, _, c', hc', rfl⟩ := h
    simp [ih hc']

lemma mem_listProduct_iff {α : Type} {ls : List (List α)} {c : List α} :
    c ∈ listProduct ls ↔ List.Forall₂ (fun x l => x ∈ l) c ls := by
  induction ls generalizing c with
  | nil =>
    simp only [listProduct, List.mem_singleton]
    constructor
    · rintro rfl
      exact List.Forall₂.nil
    · intro h
      cases h
      rfl
  | cons l ls ih =>
    simp only [listProduct, List.mem_flatMap, List.mem_map]
    constructor
    · rintro ⟨x, hx, c', hc', rfl⟩
      exact List.Forall₂.cons hx (ih.mp hc')
    · intro h
      cases h with
      | cons hx hrest => exact ⟨_, hx, _, ih.mpr hrest, rfl⟩

lemma nodup_listProduct {α : Type} {ls : List (List α)}
    (hnd : ∀ l ∈ ls, l.Nodup) : (listProduct ls).Nodup := by
  induction ls with
  | nil => simp [listProduct]
  | cons l ls ih =>
    have hexp : listProduct (l :: ls) =
        l.flatMap (fun a => (listProduct ls).map (fun t => a :: t)) := rfl
    rw [hexp, List.nodup_flatMap]
    refine ⟨?_, ?_⟩
    · intro x _
      exact List.Nodup.map List.cons_injective (ih (fun t ht => hnd t (by simp [ht])))
    · refine List.Pairwise.imp ?_ (hnd l (by simp))
      intro a b hab
      rw [Function.onFun, List.disjoint_left]
      intro c hca hcb
      obtain ⟨t, _, ht⟩ := List.mem_map.mp hca
      obtain ⟨u, _, hu⟩ := List.mem_map.mp hcb
      rw [← ht] at hu
      exact hab (List.cons.injEq .. ▸ hu).1.symm

lemma zip_right_injective_of_length {α : Type} (keys : List String)
    (x c : List α) (hx : x.length = keys.length) (hc : c.length = keys.length)
    (h : keys.zip x = keys.zip c) : x = c := by
  induction keys generalizing x c with
  | nil =>
    cases x with
    | nil =>
      cases c with
      | nil => rfl
      | cons _ _ => simp at hc
    | cons _ _ => simp at hx
  | cons k keys ih =>
    cases x with
    | nil => simp at hx
    | cons a x' =>
      cases c with
      | nil => simp at hc
      | cons b c' =>
        simp only [List.zip_cons_cons, List.cons.injEq, Prod.mk.injEq] at h
        simp only [List.length_cons, Nat.succ.injEq] at hx hc
        rw [h.1.2, ih x' c' hx hc h.2]

lemma isSelection_zip {α : Type} {input_dict : List (String × List α)}
    {c : List α} (h : List.Forall₂ (fun x l => x ∈ l) c (input_dict.map Prod.snd)) :
    IsSelection input_dict ((input_dict.map Prod.fst).zip c) := by
  induction input_dict generalizing c with
  | nil =>
    cases h
    exact List.Forall₂.nil
  | cons p input' ih =>
    simp only [List.map_cons] at h
    cases h with
    | cons hx hrest =>
      simp only [List.map_cons, List.zip_cons_cons]
      exact List.Forall₂.cons ⟨rfl, hx⟩ (ih hrest)

lemma isSelection_shape {α : Type} {input_dict : List (String × List α)}
    {sel : List (String × α)} (h : IsSelection input_dict sel) :
    sel = (input_dict.map Prod.fst).zip (sel.map Prod.snd) ∧
    List.Forall₂ (fun x l => x ∈ l) (sel.map Prod.snd) (input_dict.map Prod.snd) := by
  induction h with
  | nil => exact ⟨rfl, List.Forall₂.nil⟩
  | @cons p kv input' sel' hpkv _ ih =>
    constructor
    · simp only [List.map_cons, List.zip_cons_cons]
      rw [← ih.1, ← hpkv.1]
    · simp only [List.map_cons]
      exact List.Forall₂.cons hpkv.2 ih.2

/-- C5 counterexample: with the duplicated value list `{a: [1, 1]}` (all value
lists non-empty), the assignment `{a: 1}` is a valid combination but appears
twice in `dict_combinations`, not exactly once. -/
theorem dict_combinations_duplicate_counterexample :
    (∀ p ∈ ([("a", [1, 1])] : List (String × List ℕ)), p.2 ≠ []) ∧
    IsSelection ([("a", [1, 1])] : List (String × List ℕ)) [("a", 1)] ∧
    (dict_combinations ([("a", [1, 1])] : List (String × List ℕ))).count
      [("a", 1)] = 2 := by
  decide

/-- C5 as amended: for a parameter map with non-empty value lists,
`dict_combinations` returns exactly `n1 * ... * nk` assignments, each
assignment preserves the input key order, the empty map yields exactly the
single empty assignment, and — provided each value list is duplicate-free —
every distinct combination of one value per parameter appears exactly once
(it is an element of the result, and the result has no duplicates). -/
theorem dict_combinations_spec {α : Type} (input_dict : List (String × List α))
    (_hne : ∀ p ∈ input_dict, p.2 ≠ [])
    (hnd : ∀ p ∈ input_dict, p.2.Nodup) :
    (dict_combinations input_dict).length =
      (input_dict.map (fun p => p.2.length)).prod ∧
    (∀ sel ∈ dict_combinations input_dict,
      sel.map Prod.fst = input_dict.map Prod.fst) ∧
    (∀ sel, IsSelection input_dict sel ↔ sel ∈ dict_combinations input_dict) ∧
    (dict_combinations input_dict).Nodup ∧
    dict_combinations ([] : List (String × List α)) = [[]] := by
  have hlenP : ∀ t ∈ listProduct (input_dict.map Prod.snd),
      t.length = (input_dict.map Prod.fst).length := by
    intro t ht
    rw [length_of_mem_listProduct ht]
    simp
  have hndP : ∀ l ∈ input_dict.map Prod.snd, l.Nodup := by
    intro l hl
    obtain ⟨p, hp, rfl⟩ := List.mem_map.mp hl
    exact hnd p hp
  refine ⟨?_, ?_, ?_, ?_, rfl⟩
  · unfold dict_combinations
    rw [List.length_map, length_listProduct, List.map_map]
    rfl
  · intro sel hsel
    obtain ⟨c, hc, rfl⟩ := List.mem_map.mp hsel
    rw [List.map_fst_zip]
    rw [hlenP c hc]
  · intro sel
    constructor
    · intro hsel
      obtain ⟨hzip, hmem⟩ := isSelection_shape hsel
      refine List.mem_map.mpr ⟨sel.map Prod.snd, mem_listProduct_iff.mpr hmem, ?_⟩
      exact hzip.symm
    · intro hsel
      obtain ⟨c, hc, rfl⟩ := List.mem_map.mp hsel
      exact isSelection_zip (mem_listProduct_iff.mp hc)
  · exact List.Nodup.map_on
      (fun x hx y hy hxy => zip_right_injective_of_length _ x y
        (hlenP x hx) (hlenP y hy) hxy)
      (nodup_listProduct hndP)

/-- Witness for the amended C5 at the concrete grid
`{a: [1, 2], b: [5, 6, 7]}`. -/
theorem dict_combinations_spec_witness :
    (dict_combinations ([("a", [1, 2]), ("b", [5, 6, 7])] :
        List (String × List ℕ))).length =
      (([("a", [1, 2]), ("b", [5, 6, 7])] : List (String × List ℕ)).map
        (fun p => p.2.length)).prod ∧
    (∀ sel ∈ dict_combinations ([("a", [1, 2]), ("b", [5, 6, 7])] :
        List (String × List ℕ)),
      sel.map Prod.fst = ([("a", [1, 2]), ("b", [5, 6, 7])] :
        List (String × List ℕ)).map Prod.fst) ∧
    (∀ sel, IsSelection ([("a", [1, 2]), ("b", [5, 6, 7])] :
        List (String × List ℕ)) sel ↔
      sel ∈ dict_combinations ([("a", [1, 2]), ("b", [5, 6, 7])] :
        List (String × List ℕ))) ∧
    (dict_combinations ([("a", [1, 2]), ("b", [5, 6, 7])] :
        List (String × List ℕ))).Nodup ∧
    dict_combinations ([] : List (String × List ℕ)) = [[]] :=
  dict_combinations_spec [("a", [1, 2]), ("b", [5, 6, 7])]
    (by decide) (by decide)

/-! ## C10: an empty value list -/

lemma listProduct_eq_nil_of_mem_nil {α : Type} {ls : List (List α)}
    (h : ([] : List α) ∈ ls) : listProduct ls = [] := by
  induction ls with
  | nil => cases h
  | cons l ls ih =>
    rcases List.mem_cons.mp h with hl | hl
    · subst hl
      rfl
    · unfold listProduct
      rw [ih hl]
      simp

/-- C10: if any parameter's value list is empty, `dict_combinations` returns
the empty list of assignments, and the `generate_notebooks` loop therefore
generates zero notebooks and returns an empty list of output paths — the
non-empty-value-list constraint is not enforced. -/
theorem generate_notebooks_empty_value_list (base : String) (k : String)
    (params : List (String × List String))
    (hmem : (k, ([] : List String)) ∈ params) :
    dict_combinations params = [] ∧
    generate_notebooks_output_paths base params = [] := by
  have hnil : ([] : List String) ∈ params.map Prod.snd := by
    exact List.mem_map.mpr ⟨(k, []), hmem, rfl⟩
  have hprod : listProduct (params.map Prod.snd) = [] :=
    listProduct_eq_nil_of_mem_nil hnil
  constructor
  · unfold dict_combinations
    rw [hprod]
    rfl
  · unfold generate_notebooks_output_paths dict_combinations
    rw [hprod]
    rfl

/-- Witness for C10 at a concrete input: `{a: ["1"], b: []}`. -/
theorem generate_notebooks_empty_value_list_witness :
    dict_combinations ([("a", ["1"]), ("b", [])] : List (String × List String)) = [] ∧
    generate_notebooks_output_paths "usecase"
      ([("a", ["1"]), ("b", [])] : List (String × List String)) = [] :=
  generate_notebooks_empty_value_list "usecase" "b" [("a", ["1"]), ("b", [])]
    (by decide)

/-! ## Lemmas about `pySplitlines`, `joinLines` and
`add_statement_to_cell_source` -/

lemma splitlinesAux_no_newline : ∀ (cs acc : List Char),
    (∀ c ∈ acc, c ≠ '\n' ∧ c ≠ '\r') →
    ∀ l ∈ splitlinesAux cs acc, ∀ c ∈ l, c ≠ '\n' ∧ c ≠ '\r' := by
  intro cs acc
  induction cs, acc using splitlinesAux.induct with
  | case1 acc hacc_empty =>
    intro _ l hl _ _
    simp only [splitlinesAux, if_pos hacc_empty] at hl
    cases hl
  | case2 acc hne =>
    intro hacc l hl c hc
    simp only [splitlinesAux, if_neg hne] at hl
    rw [List.mem_singleton] at hl
    subst hl
    exact hacc c (List.mem_reverse.mp hc)
  | case3 rest acc ih =>
    intro hacc l hl c hc
    simp only [splitlinesAux, if_pos rfl] at hl
    rcases List.mem_cons.mp hl with h | h
    · subst h
      exact hacc c (List.mem_reverse.mp hc)
    · exact ih (by simp) l h c hc
  | case4 rest acc hne ih =>
    intro hacc l hl c hc
    simp only [splitlinesAux, if_neg hne, if_pos rfl] at hl
    rcases List.mem_cons.mp hl with h | h
    · subst h
      exact hacc c (List.mem_reverse.mp hc)
    · exact ih (by simp) l h c hc
  | case5 c rest acc hc1 hc2 ih =>
    intro hacc l hl cc hcc
    simp only [splitlinesAux, if_neg hc1, if_neg hc2] at hl
    refine ih ?_ l hl cc hcc
    intro d hd
    rcases List.mem_cons.mp hd with h | h
    · subst h
      exact ⟨hc1, hc2⟩
    · exact hacc d h

lemma splitlinesAux_eq_nil_iff : ∀ (cs acc : List Char),
    splitlinesAux cs acc = [] ↔ (cs = [] ∧ acc = []) := by
  intro cs acc
  induction cs, acc using splitlinesAux.induct with
  | case1 acc hacc_empty =>
    simp only [splitlinesAux, if_pos hacc_empty]
    simp [List.isEmpty_iff.mp hacc_empty]
  | case2 acc hne =>
    simp only [splitlinesAux, if_neg hne]
    simp
    intro h
    exact hne (List.isEmpty_iff.mpr h)
  | case3 rest acc ih =>
    simp [splitlinesAux]
  | case4 rest acc hne ih =>
    simp [splitlinesAux, if_neg hne]
  | case5 c rest acc hc1 hc2 ih =>
    simp only [splitlinesAux, if_neg hc1, if_neg hc2]
    rw [ih]
    simp

lemma splitlinesAux_line_append (line : List Char)
    (h : ∀ c ∈ line, c ≠ '\n' ∧ c ≠ '\r') : ∀ (rest acc : List Char),
    splitlinesAux (line ++ '\n' :: rest) acc =
      (acc.reverse ++ line) :: splitlinesAux rest [] := by
  induction line with
  | nil =>
    intro rest acc
    simp [splitlinesAux]
  | cons c cs ih =>
    intro rest acc
    have hc := h c (by simp)
    simp only [List.cons_append]
    rw [splitlinesAux, if_neg hc.1, if_neg hc.2]
    rw [ih (fun d hd => h d (by simp [hd])) rest (c :: acc)]
    simp

lemma splitlinesAux_line_only (line : List Char)
    (h : ∀ c ∈ line, c ≠ '\n' ∧ c ≠ '\r') : ∀ acc : List Char,
    splitlinesAux line acc =
      if (acc.reverse ++ line).isEmpty then [] else [acc.reverse ++ line] := by
  induction line with
  | nil =>
    intro acc
    simp [splitlinesAux]
  | cons c cs ih =>
    intro acc
    have hc := h c (by simp)
    rw [splitlinesAux, if_neg hc.1, if_neg hc.2]
    rw [ih (fun d hd => h d (by simp [hd])) (c :: acc)]
    simp

lemma pySplitlines_joinLines (ls : List (List Char))
    (h : ∀ l ∈ ls, ∀ c ∈ l, c ≠ '\n' ∧ c ≠ '\r')
    (hlast : ls.getLast? ≠ some ([] : List Char)) :
    pySplitlines (joinLines ls) = ls := by
  induction ls with
  | nil => simp [pySplitlines, joinLines, splitlinesAux]
  | cons l ls ih =>
    cases ls with
    | nil =>
      have hl : l ≠ [] := by
        intro hnil
        exact hlast (by simp [hnil])
      unfold pySplitlines joinLines
      rw [splitlinesAux_line_only l (h l (by simp)) []]
      simp [hl]
    | cons l2 ls' =>
      have hjoin : joinLines (l :: l2 :: ls') = l ++ '\n' :: joinLines (l2 :: ls') := rfl
      unfold pySplitlines
      rw [hjoin, splitlinesAux_line_append l (h l (by simp)) _ []]
      have hrec : splitlinesAux (joinLines (l2 :: ls')) [] = l2 :: ls' := by
        apply ih
        · intro t ht
          exact h t (by simp [ht])
        · rw [List.getLast?_cons_cons] at hlast
          exact hlast
      rw [hrec]
      simp

lemma pySplitlines_eq_nil_iff (src : List Char) :
    pySplitlines src = [] ↔ src = [] := by
  unfold pySplitlines
  rw [splitlinesAux_eq_nil_iff]
  simp

lemma pySplitlines_nil : pySplitlines ([] : List Char) = [] :=
  (pySplitlines_eq_nil_iff []).mpr rfl

lemma add_statement_to_cell_source_nil (stmt : List Char) :
    add_statement_to_cell_source stmt [] = [] := by
  unfold add_statement_to_cell_source
  rw [pySplitlines_nil]
  simp [joinLines]

/-- C6 counterexample: a retained code cell with empty source receives no
completion marker at all — the generated source is still empty, and its last
line is not `print("DONE")`. -/
theorem add_statement_empty_cell_counterexample :
    add_statement_to_cell_source DONE_STATEMENT [] = [] ∧
    (pySplitlines (add_statement_to_cell_source DONE_STATEMENT [])).getLast? ≠
      some DONE_STATEMENT := by
  constructor
  · exact add_statement_to_cell_source_nil DONE_STATEMENT
  · intro h
    simp [add_statement_to_cell_source, pySplitlines, splitlinesAux,
      DONE_STATEMENT, joinLines] at h

/-- C6 as amended: for a marker statement that is non-empty and contains no
line boundary (which `print("DONE")` is), `add_statement_to_cell_source`
leaves an empty cell source empty, appends the marker as the last line of
every non-empty cell source unless that exact line is already last, and is
idempotent — so repeated generation never double-appends the marker and
yields identical cell sources. -/
theorem add_statement_to_cell_source_spec (stmt : List Char) (h1 : stmt ≠ [])
    (h2 : ∀ c ∈ stmt, c ≠ '\n' ∧ c ≠ '\r') :
    (∀ src, src ≠ [] →
      (pySplitlines (add_statement_to_cell_source stmt src)).getLast? = some stmt) ∧
    (∀ src, add_statement_to_cell_source stmt (add_statement_to_cell_source stmt src)
      = add_statement_to_cell_source stmt src) ∧
    add_statement_to_cell_source stmt [] = [] := by
  have hadd : ∀ src, add_statement_to_cell_source stmt src =
      joinLines (if pySplitlines src ≠ [] ∧
        (pySplitlines src).getLast? ≠ some stmt
        then pySplitlines src ++ [stmt] else pySplitlines src) := by
    intro src
    rfl
  have key : ∀ src, pySplitlines src ≠ [] →
      pySplitlines (add_statement_to_cell_source stmt src) =
        (if pySplitlines src ≠ [] ∧ (pySplitlines src).getLast? ≠ some stmt
         then pySplitlines src ++ [stmt] else pySplitlines src) ∧
      (pySplitlines (add_statement_to_cell_source stmt src)).getLast? = some stmt := by
    intro src hL
    have hnn : ∀ l ∈ pySplitlines src, ∀ c ∈ l, c ≠ '\n' ∧ c ≠ '\r' :=
      splitlinesAux_no_newline src [] (by simp)
    have hlines : ∀ l ∈ (if pySplitlines src ≠ [] ∧
        (pySplitlines src).getLast? ≠ some stmt
        then pySplitlines src ++ [stmt] else pySplitlines src),
        ∀ c ∈ l, c ≠ '\n' ∧ c ≠ '\r' := by
      intro l hl
      split at hl
      · rcases List.mem_append.mp hl with h | h
        · exact hnn l h
        · rw [List.mem_singleton] at h
          subst h
          exact h2
      · exact hnn l hl
    have hlast : (if pySplitlines src ≠ [] ∧
        (pySplitlines src).getLast? ≠ some stmt
        then pySplitlines src ++ [stmt] else pySplitlines src).getLast? =
        some stmt := by
      split
      · exact List.getLast?_concat _
      · rename_i hcond
        rcases not_and_or.mp hcond with h | h
        · exact absurd hL h
        · rw [not_not] at h
          exact h
    have hsplit : pySplitlines (add_statement_to_cell_source stmt src) =
        (if pySplitlines src ≠ [] ∧ (pySplitlines src).getLast? ≠ some stmt
         then pySplitlines src ++ [stmt] else pySplitlines src) := by
      rw [hadd]
      apply pySplitlines_joinLines _ hlines
      rw [hlast]
      intro hsome
      exact h1 (Option.some.inj hsome)
    exact ⟨hsplit, by rw [hsplit, hlast]⟩
  refine ⟨?_, ?_, add_statement_to_cell_source_nil stmt⟩
  · intro src hsrc
    have hL : pySplitlines src ≠ [] := by
      rw [Ne, pySplitlines_eq_nil_iff]
      exact hsrc
    exact (key src hL).2
  · intro src
    by_cases hL : pySplitlines src = []
    · have hsrc : src = [] := (pySplitlines_eq_nil_iff src).mp hL
      subst hsrc
      rw [add_statement_to_cell_source_nil stmt, add_statement_to_cell_source_nil stmt]
    · obtain ⟨hsplit, hlast⟩ := key src hL
      have hL2 : pySplitlines (add_statement_to_cell_source stmt src) ≠ [] := by
        intro hnil
        rw [hnil] at hlast
        cases hlast
      rw [hadd (add_statement_to_cell_source stmt src)]
      rw [if_neg (by
        intro hcond
        exact hcond.2 hlast)]
      rw [hsplit]
      conv_rhs => rw [hadd src]

/-- Witness for the amended C6: the `DONE` marker statement and the one-line
source `"x = 1"`. -/
theorem add_statement_to_cell_source_spec_witness :
    (pySplitlines (add_statement_to_cell_source DONE_STATEMENT
      "x = 1".data)).getLast? = some DONE_STATEMENT ∧
    add_statement_to_cell_source DONE_STATEMENT
        (add_statement_to_cell_source DONE_STATEMENT "x = 1".data) =
      add_statement_to_cell_source DONE_STATEMENT "x = 1".data ∧
    add_statement_to_cell_source DONE_STATEMENT [] = [] := by
  have h := add_statement_to_cell_source_spec DONE_STATEMENT (by decide) (by decide)
  exact ⟨h.1 "x = 1".data (by decide), h.2.1 "x = 1".data, h.2.2⟩

/-! ## Lemmas about the profiler's cell loop -/

lemma execute_notebook_cells_eq_foldl : ∀ (cells : List ExecutableCell)
    (nm : NotebookMetrics), execute_notebook_cells nm cells =
      (executedCells cells).foldl collect_executable_cell_metrics nm := by
  intro cells
  induction cells with
  | nil =>
    intro nm
    rfl
  | cons ec rest ih =>
    intro nm
    by_cases h : ec.metrics.execution_status = .COMPLETED <;>
      simp [execute_notebook_cells, executedCells, h, ih]

lemma foldl_collect_time : ∀ (l : List ExecutableCell) (nm : NotebookMetrics),
    (l.foldl collect_executable_cell_metrics nm).total_execution_time =
      nm.total_execution_time + ((l.filter (fun c => !c.skip_profiling)).map
        (fun c => c.metrics.total_execution_time)).sum := by
  intro l
  induction l with
  | nil =>
    intro nm
    simp
  | cons c l ih =>
    intro nm
    rw [List.foldl_cons, ih]
    by_cases h : c.skip_profiling <;>
      simp [collect_executable_cell_metrics, h, add_assoc]

lemma foldl_collect_profiled : ∀ (l : List ExecutableCell) (nm : NotebookMetrics),
    (l.foldl collect_executable_cell_metrics nm).profiled_cells =
      nm.profiled_cells + (l.filter (fun c => !c.skip_profiling)).length := by
  intro l
  induction l with
  | nil =>
    intro nm
    simp
  | cons c l ih =>
    intro nm
    rw [List.foldl_cons, ih]
    by_cases h : c.skip_profiling <;>
      simp [collect_executable_cell_metrics, h, add_assoc, add_comm 1]

lemma foldl_collect_lists : ∀ (l : List ExecutableCell) (nm : NotebookMetrics),
    (l.foldl collect_executable_cell_metrics nm).client_cpu_list =
      nm.client_cpu_list ++ ((l.filter (fun c => !c.skip_profiling)).map
        (fun c => c.metrics.client_cpu_list)).flatten ∧
    (l.foldl collect_executable_cell_metrics nm).client_memory_list =
      nm.client_memory_list ++ ((l.filter (fun c => !c.skip_profiling)).map
        (fun c => c.metrics.client_memory_list)).flatten ∧
    (l.foldl collect_executable_cell_metrics nm).kernel_cpu_list =
      nm.kernel_cpu_list ++ ((l.filter (fun c => !c.skip_profiling)).map
        (fun c => c.metrics.kernel_cpu_list)).flatten ∧
    (l.foldl collect_executable_cell_metrics nm).kernel_memory_list =
      nm.kernel_memory_list ++ ((l.filter (fun c => !c.skip_profiling)).map
        (fun c => c.metrics.kernel_memory_list)).flatten := by
  intro l
  induction l with
  | nil =>
    intro nm
    simp
  | cons c l ih =>
    intro nm
    rw [List.foldl_cons]
    obtain ⟨ih1, ih2, ih3, ih4⟩ := ih (collect_executable_cell_metrics nm c)
    rw [ih1, ih2, ih3, ih4]
    by_cases h : c.skip_profiling <;>
      simp [collect_executable_cell_metrics, h, List.append_assoc]

/-- C7: after a profiler run, the notebook's `total_execution_time` is the sum
of the execution times of the executed cells with `skip_profiling = false`
(including the cell that triggered an early abort, if any), `profiled_cells`
counts exactly those cells, and each per-source-per-metric raw sample list is
the concatenation of those cells' raw sample lists in execution order. -/
theorem notebook_metrics_aggregation (cells : List ExecutableCell) :
    (execute_notebook_cells NotebookMetrics.init cells).total_execution_time =
      (((executedCells cells).filter (fun c => !c.skip_profiling)).map
        (fun c => c.metrics.total_execution_time)).sum ∧
    (execute_notebook_cells NotebookMetrics.init cells).profiled_cells =
      ((executedCells cells).filter (fun c => !c.skip_profiling)).length ∧
    (execute_notebook_cells NotebookMetrics.init cells).client_cpu_list =
      (((executedCells cells).filter (fun c => !c.skip_profiling)).map
        (fun c => c.metrics.client_cpu_list)).flatten ∧
    (execute_notebook_cells NotebookMetrics.init cells).client_memory_list =
      (((executedCells cells).filter (fun c => !c.skip_profiling)).map
        (fun c => c.metrics.client_memory_list)).flatten ∧
    (execute_notebook_cells NotebookMetrics.init cells).kernel_cpu_list =
      (((executedCells cells).filter (fun c => !c.skip_profiling)).map
        (fun c => c.metrics.kernel_cpu_list)).flatten ∧
    (execute_notebook_cells NotebookMetrics.init cells).kernel_memory_list =
      (((executedCells cells).filter (fun c => !c.skip_profiling)).map
        (fun c => c.metrics.kernel_memory_list)).flatten := by
  rw [execute_notebook_cells_eq_foldl]
  obtain ⟨h1, h2, h3, h4⟩ :=
    foldl_collect_lists (executedCells cells) NotebookMetrics.init
  refine ⟨?_, ?_, ?_, ?_, ?_, ?_⟩
  · rw [foldl_collect_time]
    simp [NotebookMetrics.init]
  · rw [foldl_collect_profiled]
    simp [NotebookMetrics.init]
  · rw [h1]
    simp [NotebookMetrics.init]
  · rw [h2]
    simp [NotebookMetrics.init]
  · rw [h3]
    simp [NotebookMetrics.init]
  · rw [h4]
    simp [NotebookMetrics.init]

/-! ## Lemmas about the cell-loop event trace -/

lemma cellsTrace_canonical : ∀ (cells : List ExecutableCell) (n : ℕ),
    cellsTrace n cells = ((List.range' n (executedCells cells).length).map
      (fun j => [NbEvent.execCell j, NbEvent.collectMetrics j,
        NbEvent.saveMetrics j])).flatten := by
  intro cells
  induction cells with
  | nil =>
    intro n
    simp [cellsTrace, executedCells]
  | cons ec rest ih =>
    intro n
    by_cases h : ec.metrics.execution_status = .COMPLETED
    · have hlen : (executedCells (ec :: rest)).length =
          (executedCells rest).length + 1 := by
        simp [executedCells, h]
      rw [hlen, List.range'_succ]
      simp only [cellsTrace, if_pos h, List.map_cons, List.flatten_cons]
      rw [ih (n + 1)]
      rfl
    · have hlen : (executedCells (ec :: rest)).length = 1 := by
        simp [executedCells, h]
      rw [hlen]
      simp [cellsTrace, if_neg h]

lemma executedCells_length_first_not_completed :
    ∀ (cells : List ExecutableCell) (i : ℕ) (c : ExecutableCell),
    cells.get? i = some c → c.metrics.execution_status ≠ .COMPLETED →
    (∀ j cj, j < i → cells.get? j = some cj →
      cj.metrics.execution_status = .COMPLETED) →
    (executedCells cells).length = i + 1 := by
  intro cells
  induction cells with
  | nil =>
    intro i c hget _ _
    simp at hget
  | cons ec rest ih =>
    intro i c hget hnc hpre
    cases i with
    | zero =>
      rw [List.get?_cons_zero] at hget
      have hec : ec = c := Option.some.inj hget
      subst hec
      simp [executedCells, if_neg hnc]
    | succ i' =>
      have hec : ec.metrics.execution_status = .COMPLETED :=
        hpre 0 ec (Nat.succ_pos i') List.get?_cons_zero
      rw [List.get?_cons_succ] at hget
      have hrest : (executedCells rest).length = i' + 1 := by
        refine ih i' c hget hnc ?_
        intro j cj hj hgj
        exact hpre (j + 1) cj (Nat.succ_lt_succ hj)
          (by rw [List.get?_cons_succ]; exact hgj)
      simp [executedCells, if_pos hec, hrest]

lemma cellsTrace_exec_after_collect :
    ∀ (cells : List ExecutableCell) (n i : ℕ), n ≤ i →
    NbEvent.execCell (i + 1) ∈ cellsTrace n cells →
    (∃ p q, cellsTrace n cells = p ++ q ∧ NbEvent.collectMetrics i ∈ p ∧
      NbEvent.execCell (i + 1) ∈ q) ∧
    (∃ c, cells.get? (i - n) = some c ∧
      c.metrics.execution_status = .COMPLETED) := by
  intro cells
  induction cells with
  | nil =>
    intro n i _ hmem
    simp [cellsTrace] at hmem
  | cons ec rest ih =>
    intro n i hni hmem
    have hne : NbEvent.execCell (i + 1) ≠ NbEvent.execCell n := by
      intro h
      have : i + 1 = n := by cases h; rfl
      omega
    by_cases hcomp : ec.metrics.execution_status = .COMPLETED
    · have htail : NbEvent.execCell (i + 1) ∈ cellsTrace (n + 1) rest := by
        simp only [cellsTrace, if_pos hcomp] at hmem
        rcases List.mem_cons.mp hmem with h | h
        · exact absurd h hne
        · rcases List.mem_cons.mp h with h' | h'
          · cases h'
          · rcases List.mem_cons.mp h' with h'' | h''
            · cases h''
            · exact h''
      rcases Nat.lt_or_ge n i with hlt | hge
      · have hn1 : n + 1 ≤ i := hlt
        obtain ⟨⟨p', q', htr, hcp, hcq⟩, ⟨c, hget, hc⟩⟩ := ih (n + 1) i hn1 htail
        refine ⟨⟨NbEvent.execCell n :: NbEvent.collectMetrics n ::
          NbEvent.saveMetrics n :: p', q', ?_, ?_, hcq⟩, ?_⟩
        · simp only [cellsTrace, if_pos hcomp, htr]
          rfl
        · simp [hcp]
        · refine ⟨c, ?_, hc⟩
          have hsub : i - n = (i - (n + 1)) + 1 := by omega
          rw [hsub, List.get?_cons_succ]
          exact hget
      · have hn : n = i := by omega
        subst hn
        refine ⟨⟨[NbEvent.execCell n, NbEvent.collectMetrics n,
          NbEvent.saveMetrics n], cellsTrace (n + 1) rest, ?_, by simp, htail⟩, ?_⟩
        · simp only [cellsTrace, if_pos hcomp]
          rfl
        · refine ⟨ec, ?_, hcomp⟩
          simp
    · simp only [cellsTrace, if_neg hcomp] at hmem
      rcases List.mem_cons.mp hmem with h | h
      · exact absurd h hne
      · rcases List.mem_cons.mp h with h' | h'
        · cases h'
        · rcases List.mem_cons.mp h' with h'' | h''
          · cases h''
          · cases h''

/-- C8: in the profiler's cell loop (cells numbered from 1), (a) if the cell
at 0-based position `i` is the first whose final status is not `COMPLETED`,
the event trace is exactly the execute/collect/save blocks of cells `1..i+1`
— the loop stops right after collecting and persisting that cell's metrics
and no later cell is ever executed; and (b) whenever cell `i+1` begins
executing, cell `i`'s metrics collection already appears earlier in the
trace, and cell `i` finished with status `COMPLETED`. -/
theorem cell_loop_sequencing (cells : List ExecutableCell) :
    (∀ i c, cells.get? i = some c →
      c.metrics.execution_status ≠ .COMPLETED →
      (∀ j cj, j < i → cells.get? j = some cj →
        cj.metrics.execution_status = .COMPLETED) →
      cellsTrace 1 cells = ((List.range' 1 (i + 1)).map
        (fun j => [NbEvent.execCell j, NbEvent.collectMetrics j,
          NbEvent.saveMetrics j])).flatten) ∧
    (∀ i, 1 ≤ i → NbEvent.execCell (i + 1) ∈ cellsTrace 1 cells →
      (∃ p q, cellsTrace 1 cells = p ++ q ∧ NbEvent.collectMetrics i ∈ p ∧
        NbEvent.execCell (i + 1) ∈ q) ∧
      (∃ c, cells.get? (i - 1) = some c ∧
        c.metrics.execution_status = .COMPLETED)) := by
  constructor
  · intro i c hget hnc hpre
    rw [cellsTrace_canonical cells 1,
      executedCells_length_first_not_completed cells i c hget hnc hpre]
  · intro i h1i hmem
    exact cellsTrace_exec_after_collect cells 1 i h1i hmem

/-- Witness for C8 at a concrete two-cell notebook whose second cell fails:
the trace is exactly the two blocks, and cell 2's execution is preceded by
cell 1's metrics collection. -/
theorem cell_loop_sequencing_witness :
    cellsTrace 1 [⟨false, { execution_status := .COMPLETED }⟩,
        ⟨false, { execution_status := .FAILED }⟩] =
      [NbEvent.execCell 1, NbEvent.collectMetrics 1, NbEvent.saveMetrics 1,
        NbEvent.execCell 2, NbEvent.collectMetrics 2, NbEvent.saveMetrics 2] ∧
    (∃ p q, cellsTrace 1 [⟨false, { execution_status := .COMPLETED }⟩,
        ⟨false, { execution_status := .FAILED }⟩] = p ++ q ∧
      NbEvent.collectMetrics 1 ∈ p ∧ NbEvent.execCell 2 ∈ q) := by
  have h := cell_loop_sequencing [⟨false, { execution_status := .COMPLETED }⟩,
    ⟨false, { execution_status := .FAILED }⟩]
  constructor
  · have ha := h.1 1 ⟨false, { execution_status := .FAILED }⟩ rfl
      (by simp) ?_
    · rw [ha]
      rfl
    · intro j cj hj hgj
      have hj0 : j = 0 := Nat.lt_one_iff.mp hj
      subst hj0
      rw [List.get?_cons_zero] at hgj
      rw [← Option.some.inj hgj]
  · refine ((h.2 1 le_rfl ?_).1)
    simp [cellsTrace]

/-! ## Lemmas about `Metrics.compute` -/

lemma pyMin_total (l : List ℚ) (h : l ≠ []) : ∃ v, pyMin l = some v := by
  cases l with
  | nil => exact absurd rfl h
  | cons x xs => exact ⟨xs.foldl min x, rfl⟩

lemma pyMax_total (l : List ℚ) (h : l ≠ []) : ∃ v, pyMax l = some v := by
  cases l with
  | nil => exact absurd rfl h
  | cons x xs => exact ⟨xs.foldl max x, rfl⟩

lemma pyMean_total (l : List ℚ) (h : l ≠ []) : ∃ v, pyMean l = some v := by
  refine ⟨l.sum / l.length, ?_⟩
  unfold pyMean
  rw [if_neg]
  rw [List.length_eq_zero]
  exact h

lemma applyStat_spec (stat : List ℚ → Option ℚ)
    (hstat : ∀ l : List ℚ, l ≠ [] → ∃ v, stat l = some v)
    (values : List ℚ) (old : ℚ) :
    ∃ v, applyStat stat values old = some v ∧
      (values = [] → v = old) ∧ (values ≠ [] → stat values = some v) := by
  by_cases h : values = []
  · refine ⟨old, ?_, fun _ => rfl, fun hne => absurd h hne⟩
    simp [applyStat, h]
  · obtain ⟨v, hv⟩ := hstat values h
    refine ⟨v, ?_, fun he => absurd he h, fun _ => hv⟩
    simp [applyStat, h, hv]

/-- C9: `Metrics.compute` is total — it never fails, because each statistic
is evaluated only under the non-emptiness guard; for each (source, statistic,
metric) combination it sets the field to the min/mean/max of the raw sample
list when that list is non-empty and leaves the field unchanged when the list
is empty; the raw lists themselves are untouched; and on a
default-initialised `Metrics` (all fields 0, all lists empty) it returns the
record unchanged, every statistic field still at its default 0. -/
theorem metrics_compute_spec (m : Metrics) :
    ∃ m' : Metrics, m.compute = some m' ∧
    m'.client_cpu_list = m.client_cpu_list ∧
    m'.client_memory_list = m.client_memory_list ∧
    m'.kernel_cpu_list = m.kernel_cpu_list ∧
    m'.kernel_memory_list = m.kernel_memory_list ∧
    (m.client_cpu_list = [] → m'.client_min_cpu = m.client_min_cpu ∧
      m'.client_mean_cpu = m.client_mean_cpu ∧
      m'.client_max_cpu = m.client_max_cpu) ∧
    (m.client_cpu_list ≠ [] → pyMin m.client_cpu_list = some m'.client_min_cpu ∧
      pyMean m.client_cpu_list = some m'.client_mean_cpu ∧
      pyMax m.client_cpu_list = some m'.client_max_cpu) ∧
    (m.client_memory_list = [] → m'.client_min_memory = m.client_min_memory ∧
      m'.client_mean_memory = m.client_mean_memory ∧
      m'.client_max_memory = m.client_max_memory) ∧
    (m.client_memory_list ≠ [] →
      pyMin m.client_memory_list = some m'.client_min_memory ∧
      pyMean m.client_memory_list = some m'.client_mean_memory ∧
      pyMax m.client_memory_list = some m'.client_max_memory) ∧
    (m.kernel_cpu_list = [] → m'.kernel_min_cpu = m.kernel_min_cpu ∧
      m'.kernel_mean_cpu = m.kernel_mean_cpu ∧
      m'.kernel_max_cpu = m.kernel_max_cpu) ∧
    (m.kernel_cpu_list ≠ [] → pyMin m.kernel_cpu_list = some m'.kernel_min_cpu ∧
      pyMean m.kernel_cpu_list = some m'.kernel_mean_cpu ∧
      pyMax m.kernel_cpu_list = some m'.kernel_max_cpu) ∧
    (m.kernel_memory_list = [] → m'.kernel_min_memory = m.kernel_min_memory ∧
      m'.kernel_mean_memory = m.kernel_mean_memory ∧
      m'.kernel_max_memory = m.kernel_max_memory) ∧
    (m.kernel_memory_list ≠ [] →
      pyMin m.kernel_memory_list = some m'.kernel_min_memory ∧
      pyMean m.kernel_memory_list = some m'.kernel_mean_memory ∧
      pyMax m.kernel_memory_list = some m'.kernel_max_memory) ∧
    Metrics.init.compute = some Metrics.init := by
  obtain ⟨v1, hv1, he1, hn1⟩ :=
    applyStat_spec pyMin pyMin_total m.client_cpu_list m.client_min_cpu
  obtain ⟨v2, hv2, he2, hn2⟩ :=
    applyStat_spec pyMean pyMean_total m.client_cpu_list m.client_mean_cpu
  obtain ⟨v3, hv3, he3, hn3⟩ :=
    applyStat_spec pyMax pyMax_total m.client_cpu_list m.client_max_cpu
  obtain ⟨v4, hv4, he4, hn4⟩ :=
    applyStat_spec pyMin pyMin_total m.client_memory_list m.client_min_memory
  obtain ⟨v5, hv5, he5, hn5⟩ :=
    applyStat_spec pyMean pyMean_total m.client_memory_list m.client_mean_memory
  obtain ⟨v6, hv6, he6, hn6⟩ :=
    applyStat_spec pyMax pyMax_total m.client_memory_list m.client_max_memory
  obtain ⟨v7, hv7, he7, hn7⟩ :=
    applyStat_spec pyMin pyMin_total m.kernel_cpu_list m.kernel_min_cpu
  obtain ⟨v8, hv8, he8, hn8⟩ :=
    applyStat_spec pyMean pyMean_total m.kernel_cpu_list m.kernel_mean_cpu
  obtain ⟨v9, hv9, he9, hn9⟩ :=
    applyStat_spec pyMax pyMax_total m.kernel_cpu_list m.kernel_max_cpu
  obtain ⟨v10, hv10, he10, hn10⟩ :=
    applyStat_spec pyMin pyMin_total m.kernel_memory_list m.kernel_min_memory
  obtain ⟨v11, hv11, he11, hn11⟩ :=
    applyStat_spec pyMean pyMean_total m.kernel_memory_list m.kernel_mean_memory
  obtain ⟨v12, hv12, he12, hn12⟩ :=
    applyStat_spec pyMax pyMax_total m.kernel_memory_list m.kernel_max_memory
  refine ⟨{ m with
    client_min_cpu := v1, client_mean_cpu := v2, client_max_cpu := v3,
    client_min_memory := v4, client_mean_memory := v5, client_max_memory := v6,
    kernel_min_cpu := v7, kernel_mean_cpu := v8, kernel_max_cpu := v9,
    kernel_min_memory := v10, kernel_mean_memory := v11,
    kernel_max_memory := v12 }, ?_, rfl, rfl, rfl, rfl,
    fun he => ⟨by simp [he1 he], by simp [he2 he], by simp [he3 he]⟩,
    fun hn => ⟨by simp [hn1 hn], by simp [hn2 hn], by simp [hn3 hn]⟩,
    fun he => ⟨by simp [he4 he], by simp [he5 he], by simp [he6 he]⟩,
    fun hn => ⟨by simp [hn4 hn], by simp [hn5 hn], by simp [hn6 hn]⟩,
    fun he => ⟨by simp [he7 he], by simp [he8 he], by simp [he9 he]⟩,
    fun hn => ⟨by simp [hn7 hn], by simp [hn8 hn], by simp [hn9 hn]⟩,
    fun he => ⟨by simp [he10 he], by simp [he11 he], by simp [he12 he]⟩,
    fun hn => ⟨by simp [hn10 hn], by simp [hn11 hn], by simp [hn12 hn]⟩, ?_⟩
  · rw [Metrics.compute]
    simp only [hv1, hv2, hv3, hv4, hv5, hv6, hv7, hv8, hv9, hv10, hv11, hv12,
      Option.bind_eq_bind, Option.some_bind]
  · rw [Metrics.compute]
    simp [Metrics.init, applyStat]

end JdavizProfiler
